import Mathlib

/-!
# Verification of the shared-memory object model of `vscode-wasm`

Shallow embedding of `wasm-wasi-kit/src/common/sharedObject.ts`:
the `Record.Type` layout compiler, the `SharedMemory` arena operations
(`alloc`, `preAllocated`, `copyWithin`), `MemoryLocation` round-trips,
and the `Lock` / `Signal` atomics-based primitives, together with proofs
of the specified properties.
-/

namespace SharedObject

/-! ## Alignment and property types

`Alignment` is the enum `{ byte = 1, halfWord = 2, word = 4, doubleWord = 8 }`
from `@vscode/wasm-component-model`. -/

inductive Alignment where
  | byte
  | halfWord
  | word
  | doubleWord
  deriving DecidableEq, Repr

def Alignment.toNat : Alignment → Nat
  | .byte => 1
  | .halfWord => 2
  | .word => 4
  | .doubleWord => 8

/-- `Math.max` over the numeric values of two alignments, as used by the
`Record.Type` constructor (`alignment = Math.max(alignment, type.alignment)`). -/
def Alignment.max (a b : Alignment) : Alignment :=
  if a.toNat < b.toNat then b else a

/-- Modelled from the spec: `Alignment.align(size, align)` of
`@vscode/wasm-component-model` (the package is part of this repository but not
under `src/`) rounds the running offset up to the next multiple of the
alignment ("round the running offset up to the field's alignment"). -/
def Alignment.align (s : Nat) (a : Alignment) : Nat :=
  ((s + a.toNat - 1) / a.toNat) * a.toNat

/-- A `PropertyType` as the layout compiler sees it: it only reads the
`size` and `alignment` members of `ValueType`/`ObjectType`. -/
structure PropType where
  size : Nat
  alignment : Alignment
  deriving DecidableEq, Repr

/-- `Record.Type.FieldInfo = { type: PropertyType; offset: number }`. -/
structure FieldInfo where
  offset : Nat
  type : PropType
  deriving DecidableEq, Repr

/-- The data of a compiled `Record.Type`: its alignment, its total size and
its field map in insertion (declaration) order. -/
structure RecordType where
  alignment : Alignment
  size : Nat
  fields : List (String × FieldInfo)
  deriving DecidableEq, Repr

/-- The loop body of the `Record.Type` constructor: iterate the properties in
declaration order; reject a duplicate name (`ComponentModelTrap`, embedded as
`none`); otherwise take the running alignment maximum, round the running size
up to the field's alignment to obtain the field's offset, record
`{offset, type}`, and advance the running size by the field's size. -/
def buildFields (seen : List String) (al : Alignment) (sz : Nat) :
    List (String × PropType) → Option (List (String × FieldInfo) × Alignment × Nat)
  | [] => some ([], al, sz)
  | (name, ty) :: rest =>
    if name ∈ seen then
      none
    else
      let off := Alignment.align sz ty.alignment
      match buildFields (name :: seen) (Alignment.max al ty.alignment) (off + ty.size) rest with
      | none => none
      | some (fs, al', sz') => some ((name, ⟨off, ty⟩) :: fs, al', sz')

/-- The `Record.Type` constructor: starts with `alignment = Alignment.byte`
and `size = 0` and runs the field loop; the final running size is stored as
`this.size` without any further rounding. `none` embeds the
`ComponentModelTrap` thrown on a duplicate property name. -/
def RecordType.mk? (props : List (String × PropType)) : Option RecordType :=
  match buildFields [] .byte 0 props with
  | none => none
  | some (fs, al, sz) => some ⟨al, sz, fs⟩

/-! ### Layout lemmas -/

theorem Alignment.toNat_pos (a : Alignment) : 0 < a.toNat := by
  cases a <;> decide

theorem Alignment.le_align (s : Nat) (a : Alignment) : s ≤ Alignment.align s a := by
  cases a <;> simp [Alignment.align, Alignment.toNat] <;> omega

theorem Alignment.dvd_align (s : Nat) (a : Alignment) : a.toNat ∣ Alignment.align s a :=
  dvd_mul_left a.toNat _

theorem Alignment.toNat_max (a b : Alignment) :
    (Alignment.max a b).toNat = Nat.max a.toNat b.toNat := by
  cases a <;> cases b <;> decide

/-- Invariant of the constructor loop: every produced field is laid out at or
after the running size, at an offset divisible by its alignment, its byte
interval ends at or before the final running size, consecutive fields are
strictly ordered interval-wise, the final alignment is the fold of
`Nat.max` over the field alignments, and the final running size is the last
field's end (or the initial size when there is no field). -/
theorem buildFields_sound (props : List (String × PropType)) :
    ∀ seen al sz fs al' sz', buildFields seen al sz props = some (fs, al', sz') →
      (∀ f ∈ fs, sz ≤ f.2.offset ∧ f.2.type.alignment.toNat ∣ f.2.offset ∧
        f.2.offset + f.2.type.size ≤ sz') ∧
      fs.Pairwise (fun a b => a.2.offset + a.2.type.size ≤ b.2.offset) ∧
      al'.toNat = (fs.map (fun f => f.2.type.alignment.toNat)).foldl Nat.max al.toNat ∧
      sz ≤ sz' ∧
      (fs = [] → sz' = sz) ∧
      (∀ last, fs.getLast? = some last → sz' = last.2.offset + last.2.type.size) := by
  induction props with
  | nil =>
    intro seen al sz fs al' sz' h
    simp only [buildFields, Option.some.injEq, Prod.mk.injEq] at h
    obtain ⟨hfs, hal, hsz⟩ := h
    subst hfs; subst hal; subst hsz
    refine ⟨by simp, by simp, by simp, le_refl _, fun _ => rfl, ?_⟩
    intro last hlast
    simp at hlast
  | cons p rest ih =>
    intro seen al sz fs al' sz' h
    obtain ⟨name, ty⟩ := p
    simp only [buildFields] at h
    by_cases hmem : name ∈ seen
    · simp [hmem] at h
    · simp only [if_neg hmem] at h
      set off := Alignment.align sz ty.alignment with hoff
      cases hrec : buildFields (name :: seen) (Alignment.max al ty.alignment)
          (off + ty.size) rest with
      | none => rw [hrec] at h; simp at h
      | some res =>
        obtain ⟨fs', al'', sz''⟩ := res
        rw [hrec] at h
        simp only [Option.some.injEq, Prod.mk.injEq] at h
        obtain ⟨hfs, hal, hsz⟩ := h
        subst hal; subst hsz
        obtain ⟨hall, hpair, halign, hle, hnil, hlast⟩ :=
          ih (name :: seen) (Alignment.max al ty.alignment) (off + ty.size) fs' al'' sz'' hrec
        have hszoff : sz ≤ off := Alignment.le_align sz ty.alignment
        subst hfs
        refine ⟨?_, ?_, ?_, ?_, ?_, ?_⟩
        · intro f hf
          rcases List.mem_cons.mp hf with hf | hf
          · subst hf
            exact ⟨hszoff, Alignment.dvd_align sz ty.alignment, hle⟩
          · obtain ⟨h1, h2, h3⟩ := hall f hf
            exact ⟨le_trans hszoff (by omega), h2, h3⟩
        · refine List.Pairwise.cons ?_ hpair
          intro g hg
          exact (hall g hg).1
        · rw [halign, Alignment.toNat_max]
          simp
        · omega
        · intro hcontra; simp at hcontra
        · intro last hl
          cases fs' with
          | nil =>
            simp only [List.getLast?_singleton, Option.some.injEq] at hl
            subst hl
            exact hnil rfl
          | cons g gs =>
            rw [List.getLast?_cons_cons] at hl
            exact hlast last hl

def fieldIntervalsDisjoint (a b : String × FieldInfo) : Prop :=
  ∀ x : Nat, ¬(a.2.offset ≤ x ∧ x < a.2.offset + a.2.type.size ∧
    b.2.offset ≤ x ∧ x < b.2.offset + b.2.type.size)

/-- The layout properties claimed for a compiled `Record.Type`: each field's
offset is a multiple of its alignment, offsets are non-decreasing in
declaration order, the fields' byte intervals are pairwise disjoint, and the
type's alignment is the maximum of its fields' alignments (byte for none). -/
def RecordLayoutOK (rt : RecordType) : Prop :=
  (∀ f ∈ rt.fields, ∃ k, f.2.offset = k * f.2.type.alignment.toNat) ∧
  rt.fields.Pairwise (fun a b => a.2.offset ≤ b.2.offset) ∧
  rt.fields.Pairwise fieldIntervalsDisjoint ∧
  rt.alignment.toNat = (rt.fields.map (fun f => f.2.type.alignment.toNat)).foldl Nat.max 1

/-- C1: For every `Record.Type` built from any ordered list of
`(name, PropertyType)` fields, each field's offset is a non-negative multiple
of that field's alignment, offsets are non-decreasing in declaration order, no
two fields' `[offset, offset+size)` intervals overlap, and the type's
alignment is the maximum alignment among its fields (byte when there are
none). -/
theorem recordType_layout_correct (props : List (String × PropType)) (rt : RecordType)
    (h : RecordType.mk? props = some rt) : RecordLayoutOK rt := by
  unfold RecordType.mk? at h
  cases hb : buildFields [] .byte 0 props with
  | none => rw [hb] at h; simp at h
  | some res =>
    obtain ⟨fs, al, sz⟩ := res
    rw [hb] at h
    simp only [Option.some.injEq] at h
    subst h
    obtain ⟨hall, hpair, halign, -, -, -⟩ := buildFields_sound props [] .byte 0 fs al sz hb
    refine ⟨?_, ?_, ?_, ?_⟩
    · intro f hf
      obtain ⟨-, hdvd, -⟩ := hall f hf
      obtain ⟨k, hk⟩ := hdvd
      exact ⟨k, by rw [hk, Nat.mul_comm]⟩
    · exact hpair.imp (fun {a b} hab => by omega)
    · refine hpair.imp ?_
      intro a b hab x hx
      omega
    · simpa using halign

def demoProps1 : List (String × PropType) :=
  [("a", ⟨1, .byte⟩), ("b", ⟨4, .word⟩), ("c", ⟨2, .halfWord⟩)]

def demoRT1 : RecordType :=
  ⟨.word, 10, [("a", ⟨0, ⟨1, .byte⟩⟩), ("b", ⟨4, ⟨4, .word⟩⟩), ("c", ⟨8, ⟨2, .halfWord⟩⟩)]⟩

/-- Witness for C1: the layout theorem applied to a concrete three-field
record with alignments 1, 4, 2. -/
theorem recordType_layout_correct_witness :
    RecordType.mk? demoProps1 = some demoRT1 ∧ RecordLayoutOK demoRT1 :=
  ⟨by decide, recordType_layout_correct demoProps1 demoRT1 (by decide)⟩

def demoProps2 : List (String × PropType) :=
  [("a", ⟨4, .word⟩), ("b", ⟨1, .byte⟩)]

def demoRT2 : RecordType :=
  ⟨.word, 5, [("a", ⟨0, ⟨4, .word⟩⟩), ("b", ⟨4, ⟨1, .byte⟩⟩)]⟩

/-- Counterexample to C2: for the two-field record `{a: 4/word, b: 1/byte}`
the final running offset is `4 + 1 = 5` and the record's alignment is `word`,
so rounding the final offset up to the type's alignment would give `8`; but
the constructor stores `size = 5` without any trailing rounding. -/
theorem recordType_size_not_rounded :
    RecordType.mk? demoProps2 = some demoRT2 ∧
    demoRT2.fields.getLast? = some ("b", ⟨4, ⟨1, .byte⟩⟩) ∧
    Alignment.align (4 + 1) demoRT2.alignment = 8 ∧
    demoRT2.size ≠ Alignment.align (4 + 1) demoRT2.alignment := by
  refine ⟨by decide, by decide, by decide, by decide⟩

/-- C2 (amended): for every `Record.Type`, the computed `size` equals the
final running offset — the last field's offset plus that field's size, `0`
when there are no fields — with no trailing rounding to the type's
alignment. -/
theorem recordType_size_eq_final_offset (props : List (String × PropType)) (rt : RecordType)
    (h : RecordType.mk? props = some rt) :
    rt.size = (match rt.fields.getLast? with
      | none => 0
      | some f => f.2.offset + f.2.type.size) := by
  unfold RecordType.mk? at h
  cases hb : buildFields [] .byte 0 props with
  | none => rw [hb] at h; simp at h
  | some res =>
    obtain ⟨fs, al, sz⟩ := res
    rw [hb] at h
    simp only [Option.some.injEq] at h
    subst h
    obtain ⟨-, -, -, -, hnil, hlast⟩ := buildFields_sound props [] .byte 0 fs al sz hb
    cases hl : fs.getLast? with
    | none =>
      simp only
      rw [List.getLast?_eq_none_iff] at hl
      exact hnil hl
    | some last =>
      simp only
      exact hlast last hl

/-- Witness for the amended C2 at the same concrete two-field record. -/
theorem recordType_size_eq_final_offset_witness :
    RecordType.mk? demoProps2 = some demoRT2 ∧
    demoRT2.size = (match demoRT2.fields.getLast? with
      | none => 0
      | some f => f.2.offset + f.2.type.size) :=
  ⟨by decide, recordType_size_eq_final_offset demoProps2 demoRT2 (by decide)⟩

/-! ## SharedMemory, MemoryRange and MemoryLocation

`MemoryImpl` owns one linear-memory buffer, embedded as its byte length plus
its byte contents, and an allocator export `aligned_alloc`; a `MemoryRange`
carries a back-reference to its owning memory (its `id`), a pointer and a
size. Thrown errors are embedded with `Except`. -/

/-- The error conditions thrown by the memory operations:
`Error('Allocation failed')`, `MemoryError('Memory access is out of bounds')`
and `MemoryError('Memory location does not match')`. -/
inductive MemError where
  | allocationFailed
  | outOfBounds
  | locationMismatch
  deriving DecidableEq, Repr

structure SharedMemory where
  id : String
  byteLength : Nat
  buf : Nat → Nat

structure MemoryRange where
  memId : String
  ptr : Nat
  size : Nat
  deriving DecidableEq, Repr

structure MemoryLocation where
  memId : String
  ptr : Nat
  size : Nat
  deriving DecidableEq, Repr

/-- `MemoryImpl.alloc(align, size)`: calls the arena's `aligned_alloc` export;
a null pointer raises `Error('Allocation failed')`; otherwise a `MemoryRange`
over `[p, p + size)` is created and zero-filled through
`result.getUint8View(0).fill(0)`. The view creation's bounds check (a view
reaching past the buffer raises; modelled from the spec: every range accessor
of `@vscode/wasm-component-model` asserts the access stays inside the buffer)
is the `outOfBounds` branch. -/
def MemoryImpl.alloc (m : SharedMemory) (aligned_alloc : Nat → Nat → Nat)
    (align sz : Nat) : Except MemError (MemoryRange × SharedMemory) :=
  let p := aligned_alloc align sz
  if p = 0 then
    .error .allocationFailed
  else if p + sz > m.byteLength then
    .error .outOfBounds
  else
    .ok (⟨m.id, p, sz⟩,
      { m with buf := fun i => if p ≤ i ∧ i < p + sz then 0 else m.buf i })

/-- `MemoryImpl.preAllocated(ptr, size)`: raises `MemoryError` when
`ptr + size > buffer.byteLength`, otherwise wraps the address in a
`MemoryRange` without calling the allocator. -/
def MemoryImpl.preAllocated (m : SharedMemory) (ptr sz : Nat) :
    Except MemError MemoryRange :=
  if ptr + sz > m.byteLength then
    .error .outOfBounds
  else
    .ok ⟨m.id, ptr, sz⟩

/-- ECMAScript `%TypedArray%.prototype.copyWithin(target, start, end)` on a
`Uint8Array` over the whole buffer of length `len` (arguments here are
non-negative): clamp `target`, `start` and `end` to `len`, copy
`count = min(end - start, len - target)` bytes from `start` to `target` with
memmove semantics (reads observe the original contents). -/
def jsCopyWithin (len : Nat) (buf : Nat → Nat) (target start stop : Nat) :
    Nat → Nat :=
  let t := min target len
  let s := min start len
  let e := min stop len
  let count := min (e - s) (len - t)
  fun i => if t ≤ i ∧ i < t + count then buf (s + (i - t)) else buf i

/-- `MemoryImpl.copyWithin(dest, src)`:
`new Uint8Array(this.buffer).copyWithin(dest.ptr, src.ptr, src.ptr + src.size)`. -/
def MemoryImpl.copyWithin (m : SharedMemory) (dest src : MemoryRange) :
    SharedMemory :=
  { m with buf := jsCopyWithin m.byteLength m.buf dest.ptr src.ptr (src.ptr + src.size) }

/-- `MemoryLocation.from(memRange)` (named `fromRange` here because `from` is
a Lean keyword): records the owning memory's id, the pointer and the size. -/
def MemoryLocation.fromRange (r : MemoryRange) : MemoryLocation :=
  ⟨r.memId, r.ptr, r.size⟩

/-- `MemoryLocation.to(memory, location)`: raises
`MemoryError('Memory location does not match')` when
`memory.id !== location.memory.id`, otherwise delegates to
`memory.preAllocated(location.ptr, location.size)`. -/
def MemoryLocation.to (m : SharedMemory) (location : MemoryLocation) :
    Except MemError MemoryRange :=
  if m.id ≠ location.memId then
    .error .locationMismatch
  else
    MemoryImpl.preAllocated m location.ptr location.size

/-- C4: if `aligned_alloc` returns a null address, `alloc` raises the
allocation-failure error and allocates no range; if it returns a nonzero
address `p` (in bounds, per the allocator export contract), `alloc` returns a
`MemoryRange` with `ptr = p` and the requested size, and every byte of the
range reads as zero immediately after allocation. -/
theorem alloc_spec (m : SharedMemory) (aligned_alloc : Nat → Nat → Nat)
    (align sz : Nat) :
    (aligned_alloc align sz = 0 →
      MemoryImpl.alloc m aligned_alloc align sz = .error .allocationFailed) ∧
    (aligned_alloc align sz ≠ 0 → aligned_alloc align sz + sz ≤ m.byteLength →
      ∃ m', MemoryImpl.alloc m aligned_alloc align sz =
          .ok (⟨m.id, aligned_alloc align sz, sz⟩, m') ∧
        ∀ i, i < sz → m'.buf (aligned_alloc align sz + i) = 0) := by
  constructor
  · intro h0
    simp [MemoryImpl.alloc, h0]
  · intro h0 hb
    have halloc : MemoryImpl.alloc m aligned_alloc align sz =
        .ok (⟨m.id, aligned_alloc align sz, sz⟩,
          { m with buf := fun i =>
            (if aligned_alloc align sz ≤ i ∧ i < aligned_alloc align sz + sz then 0
             else m.buf i) }) := by
      simp only [MemoryImpl.alloc]
      rw [if_neg h0, if_neg (by omega)]
    refine ⟨_, halloc, ?_⟩
    intro i hi
    simp only
    rw [if_pos ⟨Nat.le_add_right _ _, by omega⟩]

def demoMem : SharedMemory := ⟨"arena", 16, fun _ => 7⟩

def demoAA : Nat → Nat → Nat := fun _ _ => 8

/-- Witness for C4: a 16-byte arena whose allocator returns address 8 for an
aligned 4-byte request. -/
theorem alloc_spec_witness :
    demoAA 4 4 ≠ 0 ∧ demoAA 4 4 + 4 ≤ demoMem.byteLength ∧
    (∃ m', MemoryImpl.alloc demoMem demoAA 4 4 = .ok (⟨demoMem.id, demoAA 4 4, 4⟩, m') ∧
      ∀ i, i < 4 → m'.buf (demoAA 4 4 + i) = 0) :=
  ⟨by decide, by decide, (alloc_spec demoMem demoAA 4 4).2 (by decide) (by decide)⟩

theorem jsCopyWithin_eval (len : Nat) (buf : Nat → Nat) (t s e i : Nat)
    (ht : t ≤ len) (hs : s ≤ e) (he : e ≤ len) (hd : t + (e - s) ≤ len) :
    jsCopyWithin len buf t s e i =
      if t ≤ i ∧ i < t + (e - s) then buf (s + (i - t)) else buf i := by
  simp only [jsCopyWithin]
  rw [Nat.min_eq_left ht, Nat.min_eq_left (le_trans hs he), Nat.min_eq_left he,
    Nat.min_eq_left (by omega)]

def demoMem8 : SharedMemory := ⟨"arena", 8, fun i => i⟩

def demoDest : MemoryRange := ⟨"arena", 0, 1⟩

def demoSrc : MemoryRange := ⟨"arena", 4, 2⟩

/-- Counterexample to C5: over an 8-byte buffer holding `buf i = i`,
`copyWithin` with `dest = [0, 1)` and `src = [4, 6)` writes byte index `1` —
outside `[dest.ptr, dest.ptr + dest.size)` — because the raw
`copyWithin(dest.ptr, src.ptr, src.ptr + src.size)` is clamped only by the
buffer length, never by `dest.size`. -/
theorem copyWithin_writes_outside_dest :
    (MemoryImpl.copyWithin demoMem8 demoDest demoSrc).buf 1 = 5 ∧
    demoMem8.buf 1 = 1 ∧
    ¬(demoDest.ptr ≤ 1 ∧ 1 < demoDest.ptr + demoDest.size) := by
  refine ⟨by decide, by decide, by decide⟩

/-- C5 (amended): `copyWithin(dest, src)` copies the `src.size` bytes at
`[src.ptr, src.ptr + src.size)` to `dest.ptr` and writes nothing outside
`[dest.ptr, dest.ptr + src.size)`: the copy honors the source range's bounds
and the buffer's bounds, but is not clamped to `dest.size`. -/
theorem copyWithin_spec (m : SharedMemory) (dest src : MemoryRange)
    (hs : src.ptr + src.size ≤ m.byteLength)
    (hd : dest.ptr + src.size ≤ m.byteLength) :
    (∀ i, i < src.size →
      (MemoryImpl.copyWithin m dest src).buf (dest.ptr + i) = m.buf (src.ptr + i)) ∧
    (∀ j, j < dest.ptr ∨ dest.ptr + src.size ≤ j →
      (MemoryImpl.copyWithin m dest src).buf j = m.buf j) := by
  have key : ∀ i, (MemoryImpl.copyWithin m dest src).buf i =
      if dest.ptr ≤ i ∧ i < dest.ptr + src.size then m.buf (src.ptr + (i - dest.ptr))
      else m.buf i := by
    intro i
    have := jsCopyWithin_eval m.byteLength m.buf dest.ptr src.ptr
      (src.ptr + src.size) i (by omega) (by omega) hs (by omega)
    simp only [MemoryImpl.copyWithin]
    rw [this]
    have hss : src.ptr + src.size - src.ptr = src.size := by omega
    rw [hss]
  constructor
  · intro i hi
    rw [key]
    rw [if_pos ⟨Nat.le_add_right _ _, by omega⟩]
    congr 1
    omega
  · intro j hj
    rw [key]
    rw [if_neg (by omega)]

/-- Witness for the amended C5 at the concrete 8-byte buffer. -/
theorem copyWithin_spec_witness :
    demoSrc.ptr + demoSrc.size ≤ demoMem8.byteLength ∧
    demoDest.ptr + demoSrc.size ≤ demoMem8.byteLength ∧
    ((∀ i, i < demoSrc.size →
      (MemoryImpl.copyWithin demoMem8 demoDest demoSrc).buf (demoDest.ptr + i) =
        demoMem8.buf (demoSrc.ptr + i)) ∧
    (∀ j, j < demoDest.ptr ∨ demoDest.ptr + demoSrc.size ≤ j →
      (MemoryImpl.copyWithin demoMem8 demoDest demoSrc).buf j = demoMem8.buf j)) :=
  ⟨by decide, by decide, copyWithin_spec demoMem8 demoDest demoSrc (by decide) (by decide)⟩

/-- C6: resolving `MemoryLocation.from(range)` against the same memory
returns a `MemoryRange` with the identical `ptr` and `size`. -/
theorem memoryLocation_roundtrip (m : SharedMemory) (r : MemoryRange)
    (hid : r.memId = m.id) (hb : r.ptr + r.size ≤ m.byteLength) :
    MemoryLocation.to m (MemoryLocation.fromRange r) = .ok ⟨m.id, r.ptr, r.size⟩ := by
  simp only [MemoryLocation.to, MemoryLocation.fromRange, MemoryImpl.preAllocated]
  rw [if_neg (by simp [hid]), if_neg (by omega)]

def demoRange : MemoryRange := ⟨"arena", 4, 8⟩

/-- Witness for C6: a `[4, 12)` range of the 16-byte arena round-trips. -/
theorem memoryLocation_roundtrip_witness :
    demoRange.memId = demoMem.id ∧ demoRange.ptr + demoRange.size ≤ demoMem.byteLength ∧
    MemoryLocation.to demoMem (MemoryLocation.fromRange demoRange) =
      .ok ⟨demoMem.id, demoRange.ptr, demoRange.size⟩ :=
  ⟨by decide, by decide, memoryLocation_roundtrip demoMem demoRange (by decide) (by decide)⟩

/-- C7: resolving a `MemoryLocation` whose arena id differs from the target
memory's id raises the location-mismatch error and never returns a range. -/
theorem memoryLocation_mismatch (m : SharedMemory) (location : MemoryLocation)
    (h : location.memId ≠ m.id) :
    MemoryLocation.to m location = .error .locationMismatch := by
  simp only [MemoryLocation.to]
  rw [if_pos (by simp [Ne.symm h])]

def demoLocOther : MemoryLocation := ⟨"other", 0, 4⟩

/-- Witness for C7: a location of arena `other` resolved against `arena`. -/
theorem memoryLocation_mismatch_witness :
    demoLocOther.memId ≠ demoMem.id ∧
    MemoryLocation.to demoMem demoLocOther = .error .locationMismatch :=
  ⟨by decide, memoryLocation_mismatch demoMem demoLocOther (by decide)⟩

/-- C9: resolving a `MemoryLocation` with a matching id but
`ptr + size > buffer.byteLength` raises the out-of-bounds error: `to`
delegates to `preAllocated`, which applies the bounds check. -/
theorem memoryLocation_out_of_bounds (m : SharedMemory) (location : MemoryLocation)
    (hid : location.memId = m.id) (hb : m.byteLength < location.ptr + location.size) :
    MemoryLocation.to m location = .error .outOfBounds := by
  simp only [MemoryLocation.to, MemoryImpl.preAllocated]
  rw [if_neg (by simp [hid]), if_pos (by omega)]

def demoLocFar : MemoryLocation := ⟨"arena", 12, 8⟩

/-- Witness for C9: a matching-id location `[12, 20)` of the 16-byte arena. -/
theorem memoryLocation_out_of_bounds_witness :
    demoLocFar.memId = demoMem.id ∧ demoMem.byteLength < demoLocFar.ptr + demoLocFar.size ∧
    MemoryLocation.to demoMem demoLocFar = .error .outOfBounds :=
  ⟨by decide, by decide, memoryLocation_out_of_bounds demoMem demoLocFar (by decide) (by decide)⟩

/-! ## Lock

A `Lock` consists of one shared 32-bit cell (an `Int32Array` of length one
over the lock's memory range, initialized to `1` in new mode) and the
agent-local, non-shared reentrancy counter `lockCount`. The state of one
agent's view of the lock is the pair of the cell value and that agent's
counter. `acquire` is embedded as one atomic step of its loop, executed
without interference: in the running agent, the `compareExchange` on the value
it just loaded succeeds; a failed `compareExchange` or a non-positive value
leads to `Atomics.wait` and a retry, embedded as the `blocked` outcome with
the state unchanged. -/

structure LockState where
  cell : Int
  lockCount : Nat
  deriving DecidableEq, Repr

inductive AcquireOutcome where
  | reentrant
  | acquired
  | blocked
  deriving DecidableEq, Repr

/-- One step of `Lock.acquire()`: with `lockCount > 0` the agent already
holds the lock and only the local counter is incremented; otherwise the cell
is loaded and, when positive, compare-and-swapped to `value - 1` with
`lockCount` set to `1`; a non-positive value blocks the agent on the cell. -/
def Lock.acquireStep (s : LockState) : LockState × AcquireOutcome :=
  if s.lockCount > 0 then
    ({ s with lockCount := s.lockCount + 1 }, .reentrant)
  else
    let value := s.cell
    if value > 0 then
      ({ cell := value - 1, lockCount := 1 }, .acquired)
    else
      (s, .blocked)

/-- `Lock.release()`: with `lockCount > 1` only the local counter is
decremented; otherwise the cell is atomically incremented by `1`, one waiter
is notified (the returned `Nat` is the notify count), and the local counter
is reset to `0`. The function is total: no branch raises. -/
def Lock.release (s : LockState) : LockState × Nat :=
  if s.lockCount > 1 then
    ({ s with lockCount := s.lockCount - 1 }, 0)
  else
    ({ cell := s.cell + 1, lockCount := 0 }, 1)

/-- C3: reentrant `acquire` increments only the agent-local counter and
leaves the cell untouched; `release` with local counter above one only
decrements the counter; `release` with local counter one increments the cell
by exactly `1`, notifies one waiter and resets the counter to `0`; a
non-reentrant `acquire` decrements the cell by `1` exactly when the observed
value is positive, and blocks without touching the state otherwise. -/
theorem lock_acquire_release_spec (s : LockState) :
    (s.lockCount > 0 →
      Lock.acquireStep s = ({ s with lockCount := s.lockCount + 1 }, .reentrant)) ∧
    (s.lockCount > 1 →
      Lock.release s = ({ s with lockCount := s.lockCount - 1 }, 0)) ∧
    (s.lockCount = 1 →
      Lock.release s = (⟨s.cell + 1, 0⟩, 1)) ∧
    (s.lockCount = 0 → s.cell > 0 →
      Lock.acquireStep s = (⟨s.cell - 1, 1⟩, .acquired)) ∧
    (s.lockCount = 0 → s.cell ≤ 0 →
      Lock.acquireStep s = (s, .blocked)) := by
  refine ⟨?_, ?_, ?_, ?_, ?_⟩
  · intro h
    simp only [Lock.acquireStep]
    rw [if_pos h]
  · intro h
    simp only [Lock.release]
    rw [if_pos h]
  · intro h
    simp only [Lock.release]
    rw [if_neg (by omega)]
  · intro h hc
    simp only [Lock.acquireStep]
    rw [if_neg (by omega), if_pos hc]
  · intro h hc
    simp only [Lock.acquireStep]
    rw [if_neg (by omega), if_neg (by omega)]

/-- Witness for C3: the five branches at concrete states. -/
theorem lock_acquire_release_spec_witness :
    Lock.acquireStep ⟨1, 2⟩ = (⟨1, 3⟩, .reentrant) ∧
    Lock.release ⟨0, 2⟩ = (⟨0, 1⟩, 0) ∧
    Lock.release ⟨0, 1⟩ = (⟨1, 0⟩, 1) ∧
    Lock.acquireStep ⟨1, 0⟩ = (⟨0, 1⟩, .acquired) ∧
    Lock.acquireStep ⟨0, 0⟩ = (⟨0, 0⟩, .blocked) :=
  ⟨(lock_acquire_release_spec ⟨1, 2⟩).1 (by decide),
   (lock_acquire_release_spec ⟨0, 2⟩).2.1 (by decide),
   (lock_acquire_release_spec ⟨0, 1⟩).2.2.1 (by decide),
   (lock_acquire_release_spec ⟨1, 0⟩).2.2.2.1 (by decide) (by decide),
   (lock_acquire_release_spec ⟨0, 0⟩).2.2.2.2 (by decide) (by decide)⟩

/-- C10: releasing a lock the agent does not hold (`lockCount = 0`) raises no
error — `release` is total — and takes the `Atomics.add` branch: starting
from the unlocked cell value `1`, the unmatched release drives the cell to
`2` and notifies a waiter, after which two non-reentrant `acquire` calls (by
agents with local counter `0`) both succeed, taking the cell `2 → 1 → 0`. -/
theorem lock_unmatched_release_oversignals :
    Lock.release ⟨1, 0⟩ = (⟨2, 0⟩, 1) ∧
    Lock.acquireStep ⟨2, 0⟩ = (⟨1, 1⟩, .acquired) ∧
    Lock.acquireStep ⟨1, 0⟩ = (⟨0, 1⟩, .acquired) := by
  refine ⟨by decide, by decide, by decide⟩

/-! ## Signal

A `Signal` is one shared 32-bit cell, initialized to `0` in new mode;
`resolve` stores `1` and notifies waiters; `isResolved` is a single atomic
load compared against `1`. -/

structure SignalState where
  cell : Int
  deriving DecidableEq, Repr

/-- A `Signal` constructed in new mode: `Atomics.store(this.buffer, 0, 0)`. -/
def Signal.mkNew : SignalState := ⟨0⟩

/-- `Signal.resolve(agentsToNotify?)`: `Atomics.store(this.buffer, 0, 1)`
followed by `Atomics.notify`; the stored value is `1` regardless of the
previous cell value. -/
def Signal.resolve (_s : SignalState) : SignalState := ⟨1⟩

/-- `Signal.isResolved()`: `Atomics.load(this.buffer, 0) === 1`, a pure
non-blocking read. -/
def Signal.isResolved (s : SignalState) : Bool := s.cell = 1

/-- C8: `resolve` stores `1` into the cell; `isResolved` returns `true`
exactly when the cell equals `1`, hence `false` on a newly created signal,
`true` after any `resolve`, and a second `resolve` leaves the cell at `1`. -/
theorem signal_resolve_spec :
    Signal.isResolved Signal.mkNew = false ∧
    (∀ s : SignalState, (Signal.resolve s).cell = 1) ∧
    (∀ s : SignalState, Signal.isResolved (Signal.resolve s) = true) ∧
    (∀ s : SignalState, (Signal.resolve (Signal.resolve s)).cell = 1) ∧
    (∀ s : SignalState, Signal.isResolved s = decide (s.cell = 1)) :=
  ⟨rfl, fun _ => rfl, fun _ => rfl, fun _ => rfl, fun _ => rfl⟩

end SharedObject
